import Mathlib

/-!
Shallow embedding of the chat server in `Single-heo/TCP_chat_server_on_c-`.

The embedding covers the per-connection message handling of
`TcpServer::run` (src/Server-side/server_header_definition.cpp, the body
of the event loop for a client socket that delivered `n > 0` bytes), the
helpers it calls from src/common/input.hpp (`trimBuffer`,
`isBufferEmpty`, `bufferEndsWith`, `parse_username`), username
registration (`IsDuplicated_Username`, the `usernames` set), the
broadcast loop, and `TcpServer::disconnect_client` /
`TcpServer::handle_new_connection`.

Byte buffers are modelled as `List Char` (the protocol is text; the
model assumes chunks carry no NUL byte, since the C code stores them in
NUL-terminated C strings).  The `clients` `std::unordered_map<int,
Client>` is modelled as an association list with unique keys; the
`usernames` `std::unordered_set<std::string>` as a list managed with
`List.insert` / `List.erase` (membership is what all code paths use).
`tempUsername` is a scratch member buffer that is written by
`parse_username` and consumed immediately afterwards in the same
iteration; it is modelled transiently as the parse result.
Socket sends are modelled as emitted events; the environment decides
which target descriptors fail a `send` (the `fails` parameter).
-/

namespace TcpChat

/-- C `isspace` for the default locale: space, \t, \n, \v, \f, \r. -/
def isspace (c : Char) : Bool :=
  c = ' ' || c = '\t' || c = '\n' || c = '\x0b' || c = '\x0c' || c = '\r'

/-- `trimBuffer` (src/common/input.hpp:352-390): drop leading and trailing
whitespace, keep the middle intact. -/
def trimBuffer (buffer : List Char) : List Char :=
  (((buffer.dropWhile isspace).reverse.dropWhile isspace).reverse)

/-- `isBufferEmpty` (src/common/input.hpp:398-411): true iff every byte is
whitespace (including the length-zero case). -/
def isBufferEmpty (buffer : List Char) : Bool :=
  buffer.all isspace

/-- `bufferEndsWith` (src/common/input.hpp:656-661): false when the buffer is
shorter than the suffix, otherwise compare the trailing bytes. -/
def bufferEndsWith (buffer : List Char) (suffix : List Char) : Bool :=
  if buffer.length < suffix.length then false
  else decide (buffer.drop (buffer.length - suffix.length) = suffix)

/-- The literal command prefix `"/username "` used by `parse_username`. -/
def username_cmd : List Char := "/username ".data

/-- `parse_username` (src/common/input.hpp:687-707): require the
`"/username "` prefix, require a nonempty remainder, and copy at most
`out_size - 1` bytes of the remainder (the `strncpy` truncation). -/
def parse_username (buffer : List Char) (out_size : Nat) : Option (List Char) :=
  if buffer.take username_cmd.length ≠ username_cmd then none
  else
    if buffer.drop username_cmd.length = [] then none
    else some ((buffer.drop username_cmd.length).take (out_size - 1))

/-- The per-connection record (`TcpServer::Client`): socket descriptor,
unused client buffer, display name (empty until registration), and the
accumulator for partial messages (`write_buffer`). -/
structure Client where
  fd : Nat
  client_buffer : List Char
  username : List Char
  write_buffer : List Char
deriving DecidableEq

/-- The value produced by `std::unordered_map::operator[]` on a missing key
(value-initialized `Client`). -/
def defaultClient : Client := ⟨0, [], [], []⟩

/-- Server state touched by the message path: the `clients` map and the
`usernames` set. -/
structure ServerState where
  clients : List (Nat × Client)
  usernames : List (List Char)
deriving DecidableEq

/-- One attempted `send` on a client socket: the target descriptor and the
bytes handed to `send`. -/
structure Evt where
  target : Nat
  bytes : List Char
deriving DecidableEq

/-- `clients.find(fd)` on the association-list model. -/
def lookupFd : List (Nat × Client) → Nat → Option Client
  | [], _ => none
  | (k, c) :: rest, fd => if k = fd then some c else lookupFd rest fd

/-- `clients[fd]` read access (the paths below only read keys that are
present, so the default is never observable there). -/
def lookupD (cs : List (Nat × Client)) (fd : Nat) : Client :=
  (lookupFd cs fd).getD defaultClient

/-- `clients[fd]` read-modify-write: update the entry in place, or insert a
value-initialized entry (as `operator[]` does) when the key is absent. -/
def updateClient : List (Nat × Client) → Nat → (Client → Client) → List (Nat × Client)
  | [], fd, f => [(fd, f defaultClient)]
  | (k, c) :: rest, fd, f =>
    if k = fd then (k, f c) :: rest else (k, c) :: updateClient rest fd f

/-- `c.write_buffer += t` (the accumulation step of `TcpServer::run`). -/
def appendWB (t : List Char) (c : Client) : Client :=
  { c with write_buffer := c.write_buffer ++ t }

/-- `c.write_buffer.clear()` (after a message is flushed). -/
def clearWB (c : Client) : Client :=
  { c with write_buffer := [] }

/-- `c.username = name` (registration assignment). -/
def setName (name : List Char) (c : Client) : Client :=
  { c with username := name }

/-- `clients.erase(it)` for the entry with the given key. -/
def eraseKey : List (Nat × Client) → Nat → List (Nat × Client)
  | [], _ => []
  | (k, c) :: rest, fd => if k = fd then rest else (k, c) :: eraseKey rest fd

/-- `TcpServer::disconnect_client` (server_header_definition.cpp:428-446):
if the descriptor is in the map, erase its username from the set and the
entry from the map (closing the socket and the epoll deregistration are
transport effects outside this state). -/
def disconnect_client (st : ServerState) (client_fd : Nat) : ServerState :=
  match lookupFd st.clients client_fd with
  | some c =>
    { clients := eraseKey st.clients client_fd
      usernames := st.usernames.erase c.username }
  | none => st

/-- `TcpServer::IsDuplicated_Username` (server_header_definition.cpp:411-415):
membership test on the `usernames` set. -/
def IsDuplicated_Username (st : ServerState) (name : List Char) : Bool :=
  decide (name ∈ st.usernames)

/-- `DUPLICATED_USERNAME_ERROR` — the literal bytes `101`, no newline. -/
def DUPLICATED_USERNAME_ERROR : List Char := "101".data

/-- The registration acknowledgment `"OK\n"`. -/
def OK_MSG : List Char := "OK\n".data

/-- The broadcast loop (server_header_definition.cpp:356-373): walk the
client entries, skip the sender, attempt a `send` of `msg` to every other
entry, and run `disconnect_client` on a target whose `send` fails.  The
recursion is over the remaining entries, i.e. the defined-behavior reading
of erasing exactly the current element and continuing. -/
def broadcastLoop (fd : Nat) (msg : List Char) (fails : Nat → Bool) :
    List (Nat × Client) → ServerState → ServerState × List Evt
  | [], st => (st, [])
  | (client_fd, _) :: rest, st =>
    if client_fd = fd then broadcastLoop fd msg fails rest st
    else
      let st1 := if fails client_fd then disconnect_client st client_fd else st
      let r := broadcastLoop fd msg fails rest st1
      (r.1, ⟨client_fd, msg⟩ :: r.2)

/-- The flush step of `TcpServer::run` (lines 346-373): build
`"<username>: <write_buffer>\n"` from the sender's entry, clear the
sender's `write_buffer`, and run the broadcast loop over the map. -/
def flushFrom (st : ServerState) (fd : Nat) (fails : Nat → Bool) : ServerState × List Evt :=
  broadcastLoop fd
    ((lookupD st.clients fd).username ++ ": ".data ++ (lookupD st.clients fd).write_buffer ++ ['\n'])
    fails
    (updateClient st.clients fd (fun c => { c with write_buffer := [] }))
    { st with clients := updateClient st.clients fd (fun c => { c with write_buffer := [] }) }

/-- One iteration of the client-data branch of `TcpServer::run`
(server_header_definition.cpp:301-373) for a chunk of `n > 0` received
bytes: record whether the raw chunk ends in `'\n'`, trim it, drop it if it
is all whitespace, otherwise try the registration command, otherwise
append it to the sender's `write_buffer` and, when the raw chunk ended in
`'\n'`, flush and broadcast. -/
def processChunk (st : ServerState) (fd : Nat) (chunk : List Char) (fails : Nat → Bool) :
    ServerState × List Evt :=
  if isBufferEmpty (trimBuffer chunk) then (st, [])
  else
    match parse_username (trimBuffer chunk) 64 with
    | some name =>
      if IsDuplicated_Username st name then
        (st, [⟨fd, DUPLICATED_USERNAME_ERROR⟩])
      else
        ({ clients := updateClient st.clients fd (fun c => { c with username := name })
           usernames := st.usernames.insert name },
         [⟨fd, OK_MSG⟩])
    | none =>
      let cs1 := updateClient st.clients fd
        (fun c => { c with write_buffer := c.write_buffer ++ trimBuffer chunk })
      if bufferEndsWith chunk ['\n'] = false then
        ({ st with clients := cs1 }, [])
      else
        flushFrom { st with clients := cs1 } fd fails

/-- Deliver a sequence of receive chunks from one connection, in order,
collecting the attempted sends. -/
def deliverChunks (fd : Nat) (fails : Nat → Bool) :
    ServerState → List (List Char) → ServerState × List Evt
  | st, [] => (st, [])
  | st, c :: cs =>
    let r1 := processChunk st fd c fails
    let r2 := deliverChunks fd fails r1.1 cs
    (r2.1, r1.2 ++ r2.2)

/-- `TcpServer::handle_new_connection` (server_header_definition.cpp:163-197):
`clients[new_fd] = Client{new_fd, "", "", ""}`. -/
def handle_new_connection (st : ServerState) (new_fd : Nat) : ServerState :=
  let fresh : Client := { fd := new_fd, client_buffer := [], username := [], write_buffer := [] }
  { st with clients := updateClient st.clients new_fd (fun _ => fresh) }

/-- The environment in which no `send` fails. -/
def noFail : Nat → Bool := fun _ => false

/-- A fresh client entry with a given name (empty buffers). -/
def mkClient (fd : Nat) (u : List Char) : Client :=
  { fd := fd, client_buffer := [], username := u, write_buffer := [] }

/-- Fixture: two registered clients, 1 named `u` and 2 named `v`. -/
def stTwoReg : ServerState :=
  ⟨[(1, mkClient 1 "u".data), (2, mkClient 2 "v".data)], ["u".data, "v".data]⟩

/-- Fixture: client 1 unregistered, client 2 registered as `bob`. -/
def stUnregSender : ServerState :=
  ⟨[(1, mkClient 1 []), (2, mkClient 2 "bob".data)], ["bob".data]⟩

/-- Fixture: clients 1 (`u`) and 2 (`v`) registered, client 3 unregistered. -/
def stMixed : ServerState :=
  ⟨[(1, mkClient 1 "u".data), (2, mkClient 2 "v".data), (3, mkClient 3 [])],
   ["u".data, "v".data]⟩

/-- Fixture: one connected, unregistered client. -/
def stOneFresh : ServerState := ⟨[(1, mkClient 1 [])], []⟩

/-- Fixture: one client registered as `a`. -/
def stOneRegA : ServerState := ⟨[(1, mkClient 1 "a".data)], ["a".data]⟩

/-- Fixture: three registered clients `u`, `v`, `w`. -/
def stThreeReg : ServerState :=
  ⟨[(1, mkClient 1 "u".data), (2, mkClient 2 "v".data), (3, mkClient 3 "w".data)],
   ["u".data, "v".data, "w".data]⟩

/-- The injection half of the spec's registry bijection, as state predicates
the code can be checked against: the empty name is never a registry
entry, map keys are distinct, every connection with a nonempty display
name has that name in the `usernames` set, and two distinct connections
never share a nonempty display name. -/
abbrev RegInvariant (st : ServerState) : Prop :=
  ([] ∉ st.usernames) ∧
  (st.clients.map Prod.fst).Nodup ∧
  (∀ p ∈ st.clients, p.2.username ≠ [] → p.2.username ∈ st.usernames) ∧
  (∀ p ∈ st.clients, ∀ q ∈ st.clients, p.1 ≠ q.1 → p.2.username ≠ [] →
    p.2.username ≠ q.2.username)

/-- C1 counterexample: the chunk `"a\nb\n"` contains two line terminators,
yet the server resolves a single message whose text is `"a\nb"` — the
bytes run past the first terminator, and only one broadcast line
(`"u: a\nb\n"`, to the one other client) is produced instead of two
messages `"a"` and `"b"`. -/
theorem C1_counterexample :
    (processChunk stTwoReg 1 ("a\nb\n".data) noFail).2 =
      [⟨2, "u: a\nb\n".data⟩] := by
  decide

/-- C2 counterexample: the byte sequence `"hello\n"` delivered as one chunk
resolves the message `"hello"` (one broadcast line), but delivered split
as `"hello"` then `"\n"` it resolves nothing at all: the trailing `"\n"`
chunk trims to the empty buffer and is discarded before the
end-of-chunk-terminator test, so the buffered `"hello"` is never
flushed. -/
theorem C2_counterexample :
    (processChunk stTwoReg 1 ("hello\n".data) noFail).2 =
        [⟨2, "u: hello\n".data⟩] ∧
      (deliverChunks 1 noFail stTwoReg ["hello".data, "\n".data]).2 = [] := by
  decide

/-- C3 counterexample: client 1 has not completed any `/username` exchange
(its name is empty), yet its chat line `"hi\n"` is broadcast to client 2
as `": hi\n"` — pre-registration silence does not hold. -/
theorem C3_counterexample :
    (processChunk stUnregSender 1 ("hi\n".data) noFail).2 =
      [⟨2, ": hi\n".data⟩] := by
  decide

/-- C4 counterexample: a fresh client registers `a` and then re-registers
`b`; afterwards the usernames set is `{b, a}` while the only connection
is named `b` — the entry `a` is an orphan, so the registry is not in
bijection with the registered connections. -/
theorem C4_counterexample :
    (deliverChunks 1 noFail stOneFresh
        ["/username a\n".data, "/username b\n".data]).1 =
      ⟨[(1, mkClient 1 "b".data)], ["b".data, "a".data]⟩ := by
  decide

/-- C5 counterexample: client 3 is live but unregistered (empty name), yet
the broadcast of client 1's line is written to it as well — the target
set is all other live connections, not the registered ones. -/
theorem C5_counterexample :
    (processChunk stMixed 1 ("hi\n".data) noFail).2 =
      [⟨2, "u: hi\n".data⟩, ⟨3, "u: hi\n".data⟩] := by
  decide

/-- C7 counterexample: client 1 is registered as `a`; a second registration
command `/username b` succeeds, changing the connection's display name to
`b` (and leaving `a` behind in the registry) — the name is not immutable
and the re-registration is not rejected. -/
theorem C7_counterexample :
    (processChunk stOneRegA 1 ("/username b\n".data) noFail).1 =
      ⟨[(1, mkClient 1 "b".data)], ["b".data, "a".data]⟩ := by
  decide

/-- C6, evaluated at the failing input in the defined-behavior model (the
recursion over the remaining entries, i.e. what the loop was intended to
do): three registered clients; client 1 broadcasts and the send to client
2 fails.  Client 3, after 2 in iteration order, still receives the line;
client 2 is removed from the live set and the registry exactly once.  The
C++ source instead erases the current element of the `unordered_map` out
from under the live range-for iterator and then advances it (undefined
behavior), despite its own comment claiming the loop breaks or continues
immediately. -/
theorem C6_model_behavior :
    processChunk stThreeReg 1 ("hi\n".data) (fun k => k == 2) =
      (⟨[(1, mkClient 1 "u".data), (3, mkClient 3 "w".data)],
        ["u".data, "w".data]⟩,
       [⟨2, "u: hi\n".data⟩, ⟨3, "u: hi\n".data⟩]) := by
  decide

/-! ### Helper lemmas about the buffer utilities -/

theorem dropWhile_of_all_false {α : Type} {p : α → Bool} (l : List α)
    (h : ∀ x ∈ l, p x = false) : l.dropWhile p = l := by
  cases l with
  | nil => rfl
  | cons a t =>
    rw [List.dropWhile_cons, h a (List.mem_cons_self a t)]
    simp

theorem trimBuffer_of_all_false {l : List Char}
    (h : ∀ x ∈ l, isspace x = false) : trimBuffer l = l := by
  unfold trimBuffer
  rw [dropWhile_of_all_false l h,
    dropWhile_of_all_false l.reverse (fun x hx => h x (List.mem_reverse.mp hx)),
    List.reverse_reverse]

theorem trimBuffer_append_newline {t : List Char} (hne : t ≠ [])
    (h : ∀ x ∈ t, isspace x = false) : trimBuffer (t ++ ['\n']) = t := by
  obtain ⟨a, t', rfl⟩ := List.exists_cons_of_ne_nil hne
  unfold trimBuffer
  rw [List.cons_append, List.dropWhile_cons, h a (List.mem_cons_self a t')]
  have hrev : ((a :: (t' ++ ['\n'])).reverse) = '\n' :: (t'.reverse ++ [a]) := by
    simp
  rw [if_neg (by simp), hrev, List.dropWhile_cons]
  have hnl : isspace '\n' = true := by decide
  rw [hnl]
  have hall : ∀ x ∈ t'.reverse ++ [a], isspace x = false := by
    intro x hx
    rcases List.mem_append.mp hx with hx1 | hx2
    · exact h x (List.mem_cons_of_mem a (List.mem_reverse.mp hx1))
    · rw [List.mem_singleton.mp hx2]
      exact h a (List.mem_cons_self a t')
  rw [if_pos rfl, dropWhile_of_all_false _ hall]
  simp

theorem bufferEndsWith_snoc (l : List Char) (a : Char) :
    bufferEndsWith (l ++ [a]) [a] = true := by
  unfold bufferEndsWith
  have h1 : ¬ (l ++ [a]).length < [a].length := by simp
  rw [if_neg h1]
  have h2 : (l ++ [a]).length - [a].length = l.length := by simp
  rw [h2, List.drop_left]
  simp

theorem bufferEndsWith_newline_eq_false {l : List Char}
    (h : ∀ x ∈ l, isspace x = false) : bufferEndsWith l ['\n'] = false := by
  induction l using List.reverseRecOn with
  | nil => rfl
  | append_singleton t a _ =>
    unfold bufferEndsWith
    have h1 : ¬ (t ++ [a]).length < (['\n'] : List Char).length := by simp
    have h2 : (t ++ [a]).length - (['\n'] : List Char).length = t.length := by simp
    rw [if_neg h1, h2, List.drop_left]
    have ha : isspace a = false := h a (by simp)
    have : a ≠ '\n' := by
      intro heq
      rw [heq] at ha
      exact absurd ha (by decide)
    simp [this]

theorem isBufferEmpty_eq_false_of_mem {l : List Char} {x : Char}
    (hx : x ∈ l) (hxf : isspace x = false) : isBufferEmpty l = false := by
  cases hb : isBufferEmpty l with
  | false => rfl
  | true =>
    have := List.all_eq_true.mp hb x hx
    rw [hxf] at this
    exact absurd this (by decide)

theorem parse_username_eq_none_of_no_space {l : List Char}
    (h : ∀ x ∈ l, isspace x = false) : parse_username l 64 = none := by
  unfold parse_username
  rw [if_pos]
  intro hcmd
  have hsp : ' ' ∈ username_cmd := by decide
  rw [← hcmd] at hsp
  have : ' ' ∈ l := List.take_subset _ _ hsp
  have := h ' ' this
  exact absurd this (by decide)

theorem parse_username_cmd_append {raw : List Char} (h : raw ≠ []) :
    parse_username (username_cmd ++ raw) 64 = some (raw.take 63) := by
  unfold parse_username
  rw [List.take_left, List.drop_left]
  simp [h]

theorem parse_username_name_ne_nil {buf name : List Char}
    (h : parse_username buf 64 = some name) : name ≠ [] := by
  unfold parse_username at h
  split at h
  · exact absurd h (by simp)
  · split at h
    · exact absurd h (by simp)
    · rename_i hns
      have hname : ((buf.drop username_cmd.length).take (64 - 1)) = name :=
        Option.some.inj h
      cases hd : buf.drop username_cmd.length with
      | nil => exact absurd hd hns
      | cons a t =>
        rw [hd] at hname
        rw [← hname]
        simp

theorem isBufferEmpty_eq_false_of_parse {buf name : List Char}
    (h : parse_username buf 64 = some name) : isBufferEmpty buf = false := by
  unfold parse_username at h
  split at h
  · exact absurd h (by simp)
  · rename_i hcmd
    rw [not_not] at hcmd
    have hsl : '/' ∈ username_cmd := by decide
    rw [← hcmd] at hsl
    have : '/' ∈ buf := List.take_subset _ _ hsl
    exact isBufferEmpty_eq_false_of_mem this (by decide)

/-! ### Helper lemmas about the association-list client map -/

theorem lookupFd_updateClient_self (cs : List (Nat × Client)) (fd : Nat)
    (f : Client → Client) :
    lookupFd (updateClient cs fd f) fd = some (f (lookupD cs fd)) := by
  induction cs with
  | nil => simp [updateClient, lookupFd, lookupD]
  | cons hd tl ih =>
    obtain ⟨k, c⟩ := hd
    by_cases hk : k = fd
    · subst hk
      simp [updateClient, lookupFd, lookupD]
    · simp only [updateClient, lookupFd, lookupD, if_neg hk]
      rw [ih]
      simp [lookupD]

theorem lookupFd_updateClient_ne {k fd : Nat} (hk : k ≠ fd)
    (cs : List (Nat × Client)) (f : Client → Client) :
    lookupFd (updateClient cs fd f) k = lookupFd cs k := by
  induction cs with
  | nil =>
    simp only [updateClient, lookupFd]
    rw [if_neg (fun h => hk h.symm)]
  | cons hd tl ih =>
    obtain ⟨k0, c⟩ := hd
    by_cases h0 : k0 = fd
    · subst h0
      have : k0 ≠ k := fun h => hk h.symm
      simp [updateClient, lookupFd, this]
    · simp only [updateClient, if_neg h0, lookupFd]
      by_cases h1 : k0 = k
      · simp [h1]
      · simp only [if_neg h1]
        exact ih

theorem updateClient_comp (cs : List (Nat × Client)) (fd : Nat)
    (f g : Client → Client) :
    updateClient (updateClient cs fd f) fd g = updateClient cs fd (fun c => g (f c)) := by
  induction cs with
  | nil => simp [updateClient]
  | cons hd tl ih =>
    obtain ⟨k, c⟩ := hd
    by_cases hk : k = fd
    · subst hk
      simp [updateClient]
    · simp [updateClient, hk, ih]

theorem keys_updateClient_of_mem {cs : List (Nat × Client)} {fd : Nat}
    (h : fd ∈ cs.map Prod.fst) (f : Client → Client) :
    (updateClient cs fd f).map Prod.fst = cs.map Prod.fst := by
  induction cs with
  | nil => simp at h
  | cons hd tl ih =>
    obtain ⟨k, c⟩ := hd
    by_cases hk : k = fd
    · subst hk
      simp [updateClient]
    · have : fd ∈ tl.map Prod.fst := by
        rcases List.mem_map.mp h with ⟨p, hp, hfst⟩
        rcases List.mem_cons.mp hp with h1 | h2
        · exact absurd (h1 ▸ hfst) (by simpa using fun h => hk h)
        · exact List.mem_map.mpr ⟨p, h2, hfst⟩
      simp [updateClient, hk, ih this]

theorem keys_updateClient_of_not_mem {cs : List (Nat × Client)} {fd : Nat}
    (h : fd ∉ cs.map Prod.fst) (f : Client → Client) :
    (updateClient cs fd f).map Prod.fst = cs.map Prod.fst ++ [fd] := by
  induction cs with
  | nil => simp [updateClient]
  | cons hd tl ih =>
    obtain ⟨k, c⟩ := hd
    have hk : k ≠ fd := by
      intro heq
      exact h (by simp [heq])
    have htl : fd ∉ tl.map Prod.fst := fun hmem => h (by simp [hmem])
    simp [updateClient, hk, ih htl]

theorem nodup_keys_updateClient {cs : List (Nat × Client)} {fd : Nat}
    (h : (cs.map Prod.fst).Nodup) (f : Client → Client) :
    ((updateClient cs fd f).map Prod.fst).Nodup := by
  by_cases hmem : fd ∈ cs.map Prod.fst
  · rw [keys_updateClient_of_mem hmem]
    exact h
  · rw [keys_updateClient_of_not_mem hmem]
    simp [List.nodup_append, h, hmem]

theorem mem_updateClient {p : Nat × Client} {cs : List (Nat × Client)} {fd : Nat}
    {f : Client → Client} (h : p ∈ updateClient cs fd f) :
    p ∈ cs ∨ (∃ c, lookupFd cs fd = some c ∧ p = (fd, f c)) ∨
      (lookupFd cs fd = none ∧ p = (fd, f defaultClient)) := by
  induction cs with
  | nil =>
    simp [updateClient] at h
    exact Or.inr (Or.inr ⟨rfl, by simp [h]⟩)
  | cons hd tl ih =>
    obtain ⟨k, c⟩ := hd
    by_cases hk : k = fd
    · subst hk
      simp only [updateClient, if_pos rfl] at h
      rcases List.mem_cons.mp h with h1 | h2
      · exact Or.inr (Or.inl ⟨c, by simp [lookupFd], by simp [h1]⟩)
      · exact Or.inl (List.mem_cons_of_mem _ h2)
    · simp only [updateClient, if_neg hk] at h
      rcases List.mem_cons.mp h with h1 | h2
      · exact Or.inl (by simp [h1])
      · rcases ih h2 with ha | hb | hc
        · exact Or.inl (List.mem_cons_of_mem _ ha)
        · exact Or.inr (Or.inl (by simpa [lookupFd, hk] using hb))
        · exact Or.inr (Or.inr (by simpa [lookupFd, hk] using hc))

theorem mem_of_mem_eraseKey {p : Nat × Client} {cs : List (Nat × Client)} {k : Nat}
    (h : p ∈ eraseKey cs k) : p ∈ cs := by
  induction cs with
  | nil => simp [eraseKey] at h
  | cons hd tl ih =>
    obtain ⟨k0, c⟩ := hd
    by_cases h0 : k0 = k
    · subst h0
      simp only [eraseKey, if_pos rfl] at h
      exact List.mem_cons_of_mem _ h
    · simp only [eraseKey, if_neg h0] at h
      rcases List.mem_cons.mp h with h1 | h2
      · exact by simp [h1]
      · exact List.mem_cons_of_mem _ (ih h2)

theorem keys_eraseKey_sublist (cs : List (Nat × Client)) (k : Nat) :
    ((eraseKey cs k).map Prod.fst).Sublist (cs.map Prod.fst) := by
  induction cs with
  | nil => simp [eraseKey]
  | cons hd tl ih =>
    obtain ⟨k0, c⟩ := hd
    by_cases h0 : k0 = k
    · subst h0
      simp only [eraseKey, if_pos rfl, List.map_cons]
      exact (List.sublist_cons_self _ _)
    · simp only [eraseKey, if_neg h0, List.map_cons]
      exact ih.cons₂ _

theorem nodup_keys_eraseKey {cs : List (Nat × Client)} (k : Nat)
    (h : (cs.map Prod.fst).Nodup) : ((eraseKey cs k).map Prod.fst).Nodup :=
  (keys_eraseKey_sublist cs k).nodup h

theorem fst_ne_of_mem_eraseKey {p : Nat × Client} {cs : List (Nat × Client)} {k : Nat}
    (hnd : (cs.map Prod.fst).Nodup) (h : p ∈ eraseKey cs k) : p.1 ≠ k := by
  induction cs with
  | nil => simp [eraseKey] at h
  | cons hd tl ih =>
    obtain ⟨k0, c⟩ := hd
    rw [List.map_cons, List.nodup_cons] at hnd
    by_cases h0 : k0 = k
    · subst h0
      simp only [eraseKey, if_pos rfl] at h
      intro heq
      exact hnd.1 (heq ▸ List.mem_map.mpr ⟨p, h, rfl⟩)
    · simp only [eraseKey, if_neg h0] at h
      rcases List.mem_cons.mp h with h1 | h2
      · rw [h1]
        exact h0
      · exact ih hnd.2 h2

theorem lookupFd_eraseKey_ne {k fd : Nat} (hk : k ≠ fd) (cs : List (Nat × Client)) :
    lookupFd (eraseKey cs k) fd = lookupFd cs fd := by
  induction cs with
  | nil => simp [eraseKey]
  | cons hd tl ih =>
    obtain ⟨k0, c⟩ := hd
    by_cases h0 : k0 = k
    · subst h0
      have : k0 ≠ fd := hk
      simp [eraseKey, lookupFd, this]
    · simp only [eraseKey, if_neg h0, lookupFd]
      by_cases h1 : k0 = fd
      · simp [h1]
      · simp only [if_neg h1]
        exact ih

theorem lookupFd_mem {cs : List (Nat × Client)} {k : Nat} {c : Client}
    (h : lookupFd cs k = some c) : (k, c) ∈ cs := by
  induction cs with
  | nil => simp [lookupFd] at h
  | cons hd tl ih =>
    obtain ⟨k0, c0⟩ := hd
    by_cases h0 : k0 = k
    · subst h0
      simp only [lookupFd, if_pos rfl] at h
      simp [Option.some.inj h]
    · simp only [lookupFd, if_neg h0] at h
      exact List.mem_cons_of_mem _ (ih h)

/-! ### Helper lemmas about the broadcast loop -/

theorem broadcastLoop_events (fd : Nat) (msg : List Char) (fails : Nat → Bool)
    (entries : List (Nat × Client)) :
    ∀ st, (broadcastLoop fd msg fails entries st).2 =
      (entries.filter (fun p => !(p.1 == fd))).map (fun p => ⟨p.1, msg⟩) := by
  induction entries with
  | nil => intro st; simp [broadcastLoop]
  | cons hd tl ih =>
    intro st
    obtain ⟨k, c⟩ := hd
    by_cases hk : k = fd
    · subst hk
      simp [broadcastLoop, ih]
    · simp [broadcastLoop, hk, ih]

theorem broadcastLoop_noFail_state (fd : Nat) (msg : List Char)
    (entries : List (Nat × Client)) :
    ∀ st, (broadcastLoop fd msg noFail entries st).1 = st := by
  induction entries with
  | nil => intro st; simp [broadcastLoop]
  | cons hd tl ih =>
    intro st
    obtain ⟨k, c⟩ := hd
    by_cases hk : k = fd
    · subst hk
      simp [broadcastLoop, ih]
    · simp [broadcastLoop, hk, noFail, ih]

/-! ### Case characterizations of `processChunk` -/

theorem processChunk_noflush (st : ServerState) (fd : Nat) (chunk : List Char)
    (fails : Nat → Bool) (hemp : isBufferEmpty (trimBuffer chunk) = false)
    (hpu : parse_username (trimBuffer chunk) 64 = none)
    (hnl : bufferEndsWith chunk ['\n'] = false) :
    processChunk st fd chunk fails =
      ({ st with clients := updateClient st.clients fd (appendWB (trimBuffer chunk)) }, []) := by
  simp only [processChunk, hemp, hpu, hnl, Bool.false_eq_true, if_false, reduceIte]
  rfl

theorem processChunk_doflush (st : ServerState) (fd : Nat) (chunk : List Char)
    (fails : Nat → Bool) (hemp : isBufferEmpty (trimBuffer chunk) = false)
    (hpu : parse_username (trimBuffer chunk) 64 = none)
    (hnl : bufferEndsWith chunk ['\n'] = true) :
    processChunk st fd chunk fails =
      flushFrom { st with clients := updateClient st.clients fd (appendWB (trimBuffer chunk)) } fd fails := by
  simp only [processChunk, hemp, hpu, hnl, Bool.false_eq_true, if_false, reduceIte]
  rfl

theorem processChunk_register_conflict (st : ServerState) (fd : Nat) (chunk : List Char)
    (fails : Nat → Bool) {name : List Char}
    (hps : parse_username (trimBuffer chunk) 64 = some name)
    (hdup : name ∈ st.usernames) :
    processChunk st fd chunk fails = (st, [⟨fd, DUPLICATED_USERNAME_ERROR⟩]) := by
  have hemp := isBufferEmpty_eq_false_of_parse hps
  have hd : IsDuplicated_Username st name = true := by
    simp [IsDuplicated_Username, hdup]
  simp [processChunk, hemp, hps, hd]

theorem processChunk_register_success (st : ServerState) (fd : Nat) (chunk : List Char)
    (fails : Nat → Bool) {name : List Char}
    (hps : parse_username (trimBuffer chunk) 64 = some name)
    (hdup : name ∉ st.usernames) :
    processChunk st fd chunk fails =
      ({ clients := updateClient st.clients fd (setName name),
         usernames := st.usernames.insert name }, [⟨fd, OK_MSG⟩]) := by
  have hemp := isBufferEmpty_eq_false_of_parse hps
  have hd : IsDuplicated_Username st name = false := by
    simp [IsDuplicated_Username, hdup]
  simp only [processChunk, hemp, hps, hd, Bool.false_eq_true, if_false, reduceIte]
  rfl

theorem filter_map_fst_evt (entries : List (Nat × Client)) (fd : Nat) (msg : List Char) :
    (entries.filter (fun p => !(p.1 == fd))).map (fun p => (⟨p.1, msg⟩ : Evt)) =
      ((entries.map Prod.fst).filter (fun k => !(k == fd))).map
        (fun k => (⟨k, msg⟩ : Evt)) := by
  induction entries with
  | nil => rfl
  | cons hd tl ih =>
    obtain ⟨k, c⟩ := hd
    by_cases hk : k = fd
    · subst hk
      simp [ih]
    · simp [List.filter_cons, hk, ih]

theorem map_target_mk (msg : List Char) (l : List Nat) :
    ((l.map (fun k => (⟨k, msg⟩ : Evt))).map (fun e => e.target)) = l := by
  induction l with
  | nil => rfl
  | cons a t ih => simp [ih]

theorem flushFrom_after_append (st : ServerState) (fd : Nat) (cl : Client)
    (t : List Char) (fails : Nat → Bool)
    (hfind : lookupFd st.clients fd = some cl) :
    flushFrom { st with clients := updateClient st.clients fd (appendWB t) } fd fails =
      broadcastLoop fd (cl.username ++ ": ".data ++ (cl.write_buffer ++ t) ++ ['\n']) fails
        (updateClient st.clients fd clearWB)
        { st with clients := updateClient st.clients fd clearWB } := by
  unfold flushFrom
  have h1 : lookupD (updateClient st.clients fd (appendWB t)) fd = appendWB t cl := by
    unfold lookupD
    rw [lookupFd_updateClient_self]
    simp [lookupD, hfind]
  rw [h1]
  rw [show (fun c => { c with write_buffer := ([] : List Char) }) = clearWB from rfl]
  rw [updateClient_comp]
  rw [show (fun c => clearWB (appendWB t c)) = clearWB from rfl]
  simp [appendWB]

/-- C1, amended: a line terminator only takes effect at the end of a receive
chunk.  A chunk whose raw bytes end in `'\n'` resolves exactly one
message per chunk — the full accumulated `write_buffer` followed by the
whole trimmed chunk, interior terminators included — and that single line
is written to every other live connection, after which the buffer is
cleared.  A chunk not ending in `'\n'` resolves no message: it is trimmed
of leading/trailing whitespace and appended to the buffer. -/
theorem C1_amended (st : ServerState) (fd : Nat) (cl : Client) (chunk : List Char)
    (hfind : lookupFd st.clients fd = some cl)
    (hemp : isBufferEmpty (trimBuffer chunk) = false)
    (hpu : parse_username (trimBuffer chunk) 64 = none) :
    (bufferEndsWith chunk ['\n'] = true →
      (processChunk st fd chunk noFail).2 =
        ((st.clients.map Prod.fst).filter (fun k => !(k == fd))).map
          (fun k => ⟨k, cl.username ++ ": ".data ++ (cl.write_buffer ++ trimBuffer chunk) ++ ['\n']⟩) ∧
      lookupFd (processChunk st fd chunk noFail).1.clients fd = some (clearWB cl)) ∧
    (bufferEndsWith chunk ['\n'] = false →
      (processChunk st fd chunk noFail).2 = [] ∧
      lookupFd (processChunk st fd chunk noFail).1.clients fd =
        some (appendWB (trimBuffer chunk) cl)) := by
  have hmem : fd ∈ st.clients.map Prod.fst :=
    List.mem_map.mpr ⟨(fd, cl), lookupFd_mem hfind, rfl⟩
  constructor
  · intro hnl
    rw [processChunk_doflush st fd chunk noFail hemp hpu hnl,
      flushFrom_after_append st fd cl _ noFail hfind]
    constructor
    · rw [broadcastLoop_events, filter_map_fst_evt, keys_updateClient_of_mem hmem]
    · rw [broadcastLoop_noFail_state]
      rw [lookupFd_updateClient_self]
      simp [lookupD, hfind]
  · intro hnl
    rw [processChunk_noflush st fd chunk noFail hemp hpu hnl]
    constructor
    · rfl
    · rw [lookupFd_updateClient_self]
      simp [lookupD, hfind]

theorem C1_amended_witness :
    lookupFd stTwoReg.clients 1 = some (mkClient 1 "u".data) ∧
    isBufferEmpty (trimBuffer ("hi\n".data)) = false ∧
    parse_username (trimBuffer ("hi\n".data)) 64 = none ∧
    (processChunk stTwoReg 1 ("hi\n".data) noFail).2 =
      ((stTwoReg.clients.map Prod.fst).filter (fun k => !(k == 1))).map
        (fun k => ⟨k, (mkClient 1 "u".data).username ++ ": ".data ++
          ((mkClient 1 "u".data).write_buffer ++ trimBuffer ("hi\n".data)) ++ ['\n']⟩) :=
  ⟨by decide, by decide, by decide,
    ((C1_amended stTwoReg 1 (mkClient 1 "u".data) ("hi\n".data)
      (by decide) (by decide) (by decide)).1 (by decide)).1⟩

/-- C3, amended: a complete chat line from a connection that has not yet
registered is still broadcast — the server never consults the
registration state on the chat path, so the line is written to every
other live connection attributed to the empty name, as `": <text>\n"`. -/
theorem C3_amended (st : ServerState) (fd : Nat) (cl : Client) (chunk : List Char)
    (fails : Nat → Bool)
    (hfind : lookupFd st.clients fd = some cl)
    (hureg : cl.username = [])
    (hemp : isBufferEmpty (trimBuffer chunk) = false)
    (hpu : parse_username (trimBuffer chunk) 64 = none)
    (hnl : bufferEndsWith chunk ['\n'] = true) :
    (processChunk st fd chunk fails).2 =
      ((st.clients.map Prod.fst).filter (fun k => !(k == fd))).map
        (fun k => ⟨k, ": ".data ++ (cl.write_buffer ++ trimBuffer chunk) ++ ['\n']⟩) := by
  have hmem : fd ∈ st.clients.map Prod.fst :=
    List.mem_map.mpr ⟨(fd, cl), lookupFd_mem hfind, rfl⟩
  rw [processChunk_doflush st fd chunk fails hemp hpu hnl,
    flushFrom_after_append st fd cl _ fails hfind]
  rw [broadcastLoop_events, filter_map_fst_evt, keys_updateClient_of_mem hmem, hureg]
  simp

theorem C3_amended_witness :
    lookupFd stUnregSender.clients 1 = some (mkClient 1 []) ∧
    (mkClient 1 ([] : List Char)).username = [] ∧
    (processChunk stUnregSender 1 ("hi\n".data) noFail).2 =
      ((stUnregSender.clients.map Prod.fst).filter (fun k => !(k == 1))).map
        (fun k => ⟨k, ": ".data ++ ((mkClient 1 ([] : List Char)).write_buffer ++
          trimBuffer ("hi\n".data)) ++ ['\n']⟩) :=
  ⟨by decide, by decide,
    C3_amended stUnregSender 1 (mkClient 1 []) ("hi\n".data) noFail
      (by decide) (by decide) (by decide) (by decide) (by decide)⟩

/-- C5, amended: when a completed line is broadcast, the set of attempted
write targets is exactly the live connections other than the sender —
registration plays no role, so live-but-unregistered connections are
written to as well. -/
theorem C5_amended (st : ServerState) (fd : Nat) (cl : Client) (chunk : List Char)
    (fails : Nat → Bool)
    (hfind : lookupFd st.clients fd = some cl)
    (hemp : isBufferEmpty (trimBuffer chunk) = false)
    (hpu : parse_username (trimBuffer chunk) 64 = none)
    (hnl : bufferEndsWith chunk ['\n'] = true) :
    ((processChunk st fd chunk fails).2).map (fun e => e.target) =
      (st.clients.map Prod.fst).filter (fun k => !(k == fd)) := by
  have hmem : fd ∈ st.clients.map Prod.fst :=
    List.mem_map.mpr ⟨(fd, cl), lookupFd_mem hfind, rfl⟩
  rw [processChunk_doflush st fd chunk fails hemp hpu hnl,
    flushFrom_after_append st fd cl _ fails hfind]
  rw [broadcastLoop_events, filter_map_fst_evt, keys_updateClient_of_mem hmem,
    map_target_mk]

theorem C5_amended_witness :
    lookupFd stMixed.clients 1 = some (mkClient 1 "u".data) ∧
    ((processChunk stMixed 1 ("hi\n".data) noFail).2).map (fun e => e.target) =
      (stMixed.clients.map Prod.fst).filter (fun k => !(k == 1)) :=
  ⟨by decide,
    C5_amended stMixed 1 (mkClient 1 "u".data) ("hi\n".data) noFail
      (by decide) (by decide) (by decide) (by decide)⟩

/-- C7, amended: a registered connection's display name is not immutable.
A repeated registration command whose (truncated) candidate name is
already in the registry — including the connection's own current name —
is rejected with the conflict token and changes nothing; but a repeated
registration carrying an untaken name succeeds: the server replies
`OK\n`, replaces the connection's display name, and inserts the new name
into the registry while the old name stays behind in it. -/
theorem C7_amended (st : ServerState) (fd : Nat) (cl : Client) (chunk : List Char)
    (fails : Nat → Bool) (name : List Char)
    (hfind : lookupFd st.clients fd = some cl)
    (_hreg : cl.username ≠ [])
    (hps : parse_username (trimBuffer chunk) 64 = some name) :
    (name ∈ st.usernames →
      processChunk st fd chunk fails = (st, [⟨fd, DUPLICATED_USERNAME_ERROR⟩])) ∧
    (name ∉ st.usernames →
      lookupFd (processChunk st fd chunk fails).1.clients fd = some (setName name cl) ∧
      (processChunk st fd chunk fails).1.usernames = st.usernames.insert name ∧
      (processChunk st fd chunk fails).2 = [⟨fd, OK_MSG⟩]) := by
  constructor
  · intro hdup
    exact processChunk_register_conflict st fd chunk fails hps hdup
  · intro hdup
    rw [processChunk_register_success st fd chunk fails hps hdup]
    refine ⟨?_, rfl, rfl⟩
    rw [lookupFd_updateClient_self]
    simp [lookupD, hfind]

theorem C7_amended_witness :
    lookupFd stOneRegA.clients 1 = some (mkClient 1 "a".data) ∧
    (mkClient 1 ("a".data)).username ≠ [] ∧
    parse_username (trimBuffer ("/username b\n".data)) 64 = some ("b".data) ∧
    ("b".data ∉ stOneRegA.usernames) ∧
    lookupFd (processChunk stOneRegA 1 ("/username b\n".data) noFail).1.clients 1 =
      some (setName ("b".data) (mkClient 1 "a".data)) :=
  ⟨by decide, by decide, by decide, by decide,
    ((C7_amended stOneRegA 1 (mkClient 1 "a".data) ("/username b\n".data) noFail
      ("b".data) (by decide) (by decide) (by decide)).2 (by decide)).1⟩

/-- C8, confirmed: a registration attempt whose candidate name is already
taken fails with no state change at all — the usernames set, the clients
map (hence the requester's still-empty name) are untouched — and the
requester is sent exactly the bytes `101` with no newline; a subsequent
retry from the unchanged state with an untaken candidate succeeds, is
acknowledged with `OK\n`, sets the requester's name, and enters it in
the registry. -/
theorem C8_conflict_then_retry (st : ServerState) (fd : Nat) (cl : Client)
    (chunk chunk2 : List Char) (fails : Nat → Bool) (name name2 : List Char)
    (hfind : lookupFd st.clients fd = some cl)
    (_hempty : cl.username = [])
    (hps : parse_username (trimBuffer chunk) 64 = some name)
    (hdup : name ∈ st.usernames)
    (hps2 : parse_username (trimBuffer chunk2) 64 = some name2)
    (hfree : name2 ∉ st.usernames) :
    processChunk st fd chunk fails = (st, [⟨fd, DUPLICATED_USERNAME_ERROR⟩]) ∧
    (processChunk st fd chunk2 fails).2 = [⟨fd, OK_MSG⟩] ∧
    lookupFd (processChunk st fd chunk2 fails).1.clients fd = some (setName name2 cl) ∧
    name2 ∈ (processChunk st fd chunk2 fails).1.usernames := by
  refine ⟨processChunk_register_conflict st fd chunk fails hps hdup, ?_, ?_, ?_⟩
  · rw [processChunk_register_success st fd chunk2 fails hps2 hfree]
  · rw [processChunk_register_success st fd chunk2 fails hps2 hfree]
    rw [lookupFd_updateClient_self]
    simp [lookupD, hfind]
  · rw [processChunk_register_success st fd chunk2 fails hps2 hfree]
    exact List.mem_insert_self _ _

theorem C8_conflict_then_retry_witness :
    lookupFd stUnregSender.clients 1 = some (mkClient 1 []) ∧
    parse_username (trimBuffer ("/username bob\n".data)) 64 = some ("bob".data) ∧
    ("bob".data ∈ stUnregSender.usernames) ∧
    parse_username (trimBuffer ("/username al\n".data)) 64 = some ("al".data) ∧
    ("al".data ∉ stUnregSender.usernames) ∧
    processChunk stUnregSender 1 ("/username bob\n".data) noFail =
      (stUnregSender, [⟨1, DUPLICATED_USERNAME_ERROR⟩]) :=
  ⟨by decide, by decide, by decide, by decide, by decide,
    (C8_conflict_then_retry stUnregSender 1 (mkClient 1 [])
      ("/username bob\n".data) ("/username al\n".data) noFail
      ("bob".data) ("al".data)
      (by decide) (by decide) (by decide) (by decide) (by decide) (by decide)).1⟩

/-- C9, confirmed: the broadcast loop skips the sender's descriptor, so no
attempted broadcast write ever targets the sending connection. -/
theorem C9_no_self_delivery (fd : Nat) (msg : List Char) (fails : Nat → Bool)
    (entries : List (Nat × Client)) (st : ServerState) :
    ((broadcastLoop fd msg fails entries st).2.all (fun e => !(e.target == fd))) = true := by
  rw [broadcastLoop_events, List.all_eq_true]
  intro e he
  rcases List.mem_map.mp he with ⟨k, hk, rfl⟩
  have := List.of_mem_filter hk
  simpa using this

/-- C10, confirmed: `parse_username` copies at most 63 bytes of the
candidate into `tempUsername` (`strncpy` with `out_size - 1 = 63`), so
the name checked for duplication and stored in the registry is the
63-byte truncation: after one client registers `raw1`, a second
registration whose candidate `raw2` agrees with `raw1` on the first 63
bytes receives the conflict token, even when the full names differ. -/
theorem C10_truncation (st : ServerState) (fd1 fd2 : Nat) (fails : Nat → Bool)
    (raw1 raw2 chunk1 chunk2 : List Char)
    (h1 : raw1 ≠ []) (h2 : raw2 ≠ [])
    (heq : raw1.take 63 = raw2.take 63)
    (hfree : raw1.take 63 ∉ st.usernames)
    (ht1 : trimBuffer chunk1 = username_cmd ++ raw1)
    (ht2 : trimBuffer chunk2 = username_cmd ++ raw2) :
    (processChunk st fd1 chunk1 fails).2 = [⟨fd1, OK_MSG⟩] ∧
    processChunk (processChunk st fd1 chunk1 fails).1 fd2 chunk2 fails =
      ((processChunk st fd1 chunk1 fails).1, [⟨fd2, DUPLICATED_USERNAME_ERROR⟩]) := by
  have hps1 : parse_username (trimBuffer chunk1) 64 = some (raw1.take 63) := by
    rw [ht1]
    exact parse_username_cmd_append h1
  have hps2 : parse_username (trimBuffer chunk2) 64 = some (raw2.take 63) := by
    rw [ht2]
    exact parse_username_cmd_append h2
  have hsucc := processChunk_register_success st fd1 chunk1 fails hps1 hfree
  constructor
  · rw [hsucc]
  · rw [hsucc]
    apply processChunk_register_conflict _ fd2 chunk2 fails hps2
    rw [← heq]
    exact List.mem_insert_self _ _

theorem C10_truncation_witness :
    (List.replicate 63 'a' ++ ['b'] : List Char) ≠ [] ∧
    (List.replicate 63 'a' ++ ['c'] : List Char) ≠ [] ∧
    (List.replicate 63 'a' ++ ['b'] : List Char).take 63 =
      (List.replicate 63 'a' ++ ['c'] : List Char).take 63 ∧
    trimBuffer (username_cmd ++ (List.replicate 63 'a' ++ ['b'])) =
      username_cmd ++ (List.replicate 63 'a' ++ ['b']) ∧
    processChunk
        (processChunk stOneFresh 1 (username_cmd ++ (List.replicate 63 'a' ++ ['b'])) noFail).1
        2 (username_cmd ++ (List.replicate 63 'a' ++ ['c'])) noFail =
      ((processChunk stOneFresh 1 (username_cmd ++ (List.replicate 63 'a' ++ ['b'])) noFail).1,
        [⟨2, DUPLICATED_USERNAME_ERROR⟩]) :=
  ⟨by decide, by decide, by decide, by decide,
    (C10_truncation stOneFresh 1 2 noFail
      (List.replicate 63 'a' ++ ['b']) (List.replicate 63 'a' ++ ['c'])
      (username_cmd ++ (List.replicate 63 'a' ++ ['b']))
      (username_cmd ++ (List.replicate 63 'a' ++ ['c']))
      (by decide) (by decide) (by decide) (by decide) (by decide) (by decide)).2⟩

/-! ### Chunk-splitting machinery for C2 -/

theorem processChunk_accumulate_noWS {chunk : List Char} (hne : chunk ≠ [])
    (hw : ∀ x ∈ chunk, isspace x = false) (st : ServerState) (fd : Nat)
    (fails : Nat → Bool) :
    processChunk st fd chunk fails =
      ({ st with clients := updateClient st.clients fd (appendWB chunk) }, []) := by
  have htr : trimBuffer chunk = chunk := trimBuffer_of_all_false hw
  obtain ⟨a, t, rfl⟩ := List.exists_cons_of_ne_nil hne
  have hemp : isBufferEmpty (trimBuffer (a :: t)) = false := by
    rw [htr]
    exact isBufferEmpty_eq_false_of_mem (List.mem_cons_self a t) (hw a (List.mem_cons_self a t))
  have hpu : parse_username (trimBuffer (a :: t)) 64 = none := by
    rw [htr]
    exact parse_username_eq_none_of_no_space hw
  have hnl : bufferEndsWith (a :: t) ['\n'] = false := bufferEndsWith_newline_eq_false hw
  rw [processChunk_noflush st fd (a :: t) fails hemp hpu hnl, htr]

theorem processChunk_flush_noWS {t : List Char} (hne : t ≠ [])
    (hw : ∀ x ∈ t, isspace x = false) (st : ServerState) (fd : Nat)
    (fails : Nat → Bool) :
    processChunk st fd (t ++ ['\n']) fails =
      flushFrom { st with clients := updateClient st.clients fd (appendWB t) } fd fails := by
  have htr : trimBuffer (t ++ ['\n']) = t := trimBuffer_append_newline hne hw
  have hemp : isBufferEmpty (trimBuffer (t ++ ['\n'])) = false := by
    rw [htr]
    obtain ⟨a, t', rfl⟩ := List.exists_cons_of_ne_nil hne
    exact isBufferEmpty_eq_false_of_mem (List.mem_cons_self a t') (hw a (List.mem_cons_self a t'))
  have hpu : parse_username (trimBuffer (t ++ ['\n'])) 64 = none := by
    rw [htr]
    exact parse_username_eq_none_of_no_space hw
  have hnl : bufferEndsWith (t ++ ['\n']) ['\n'] = true := bufferEndsWith_snoc t '\n'
  rw [processChunk_doflush st fd (t ++ ['\n']) fails hemp hpu hnl, htr]

theorem processChunk_flush_shift (st : ServerState) (fd : Nat) (fails : Nat → Bool)
    {c bd : List Char} (hcne : c ≠ []) (hcw : ∀ x ∈ c, isspace x = false)
    (hbdne : bd ≠ []) (hbdw : ∀ x ∈ bd, isspace x = false) :
    processChunk { st with clients := updateClient st.clients fd (appendWB c) } fd
        (bd ++ ['\n']) fails =
      processChunk st fd ((c ++ bd) ++ ['\n']) fails := by
  have habne : c ++ bd ≠ [] := by
    intro h0
    exact hcne (List.append_eq_nil.mp h0).1
  have habw : ∀ x ∈ c ++ bd, isspace x = false := by
    intro x hx
    rcases List.mem_append.mp hx with h | h
    · exact hcw x h
    · exact hbdw x h
  rw [processChunk_flush_noWS hbdne hbdw, processChunk_flush_noWS habne habw]
  have hfun : (fun cl => appendWB bd (appendWB c cl)) = appendWB (c ++ bd) := by
    funext cl
    simp [appendWB, List.append_assoc]
  have hcs : updateClient (updateClient st.clients fd (appendWB c)) fd (appendWB bd) =
      updateClient st.clients fd (appendWB (c ++ bd)) := by
    rw [updateClient_comp, hfun]
  simp only [hcs]

/-- C2, amended: splitting the byte stream at arbitrary chunk boundaries
does change the resolved messages in general (see the counterexample:
`"hello\n"` as one chunk yields one message, as `"hello"` then `"\n"` it
yields none).  Invariance does hold on the whitespace-free fragment of
the protocol: for a payload `body ++ "\n"` where `body` is nonempty and
contains no whitespace byte, every split into receive chunks each of
which contains at least one non-whitespace byte resolves exactly the
same sends and the same final state as single-chunk delivery. -/
theorem C2_amended (fd : Nat) (fails : Nat → Bool) :
    ∀ (cs : List (List Char)) (body : List Char) (st : ServerState),
      (∀ x ∈ body, isspace x = false) → body ≠ [] →
      cs.flatten = body ++ ['\n'] →
      (∀ c ∈ cs, ∃ x ∈ c, isspace x = false) →
      deliverChunks fd fails st cs = processChunk st fd (body ++ ['\n']) fails := by
  intro cs
  induction cs with
  | nil =>
    intro body st hbw hb hj hnz
    exact absurd hj.symm (by simp)
  | cons c cs' ih =>
    intro body st hbw hb hj hnz
    cases cs' with
    | nil =>
      have hc : c = body ++ ['\n'] := by simpa using hj
      subst hc
      simp [deliverChunks]
    | cons c2 cs'' =>
      have hj' : c ++ (c2 :: cs'').flatten = body ++ ['\n'] := by simpa using hj
      have hc2ne : c2 ≠ [] := by
        obtain ⟨x, hx, _⟩ := hnz c2 (by simp)
        exact List.ne_nil_of_mem hx
      have hrne : (c2 :: cs'').flatten ≠ [] := by
        simp only [List.flatten_cons]
        intro h0
        exact hc2ne (List.append_eq_nil.mp h0).1
      have hlen : c.length ≤ body.length := by
        have hlj := congrArg List.length hj'
        simp only [List.length_append, List.length_cons, List.length_nil] at hlj
        have hpos : 0 < (c2 :: cs'').flatten.length := List.length_pos.mpr hrne
        omega
      have hc : c = body.take c.length := by
        have h1 : (c ++ (c2 :: cs'').flatten).take c.length = c := by
          rw [List.take_append_of_le_length (le_refl c.length), List.take_length]
        rw [hj', List.take_append_of_le_length hlen] at h1
        exact h1.symm
      have hjoin' : (c2 :: cs'').flatten = body.drop c.length ++ ['\n'] := by
        have h1 : (c ++ (c2 :: cs'').flatten).drop c.length = (c2 :: cs'').flatten := by
          rw [List.drop_append_of_le_length (le_refl c.length), List.drop_length]
          simp
        rw [hj', List.drop_append_of_le_length hlen] at h1
        exact h1.symm
      have hcne : c ≠ [] := by
        obtain ⟨x, hx, _⟩ := hnz c (by simp)
        exact List.ne_nil_of_mem hx
      have hcw : ∀ x ∈ c, isspace x = false := by
        intro x hx
        rw [hc] at hx
        exact hbw x (List.take_subset _ _ hx)
      have hbd : body.drop c.length ≠ [] := by
        intro h0
        rw [h0, List.nil_append] at hjoin'
        obtain ⟨x, hx, hxw⟩ := hnz c2 (by simp)
        have hxj : x ∈ (c2 :: cs'').flatten := List.mem_flatten.mpr ⟨c2, by simp, hx⟩
        rw [hjoin'] at hxj
        have : x = '\n' := List.mem_singleton.mp hxj
        rw [this] at hxw
        exact absurd hxw (by decide)
      have hbdw : ∀ x ∈ body.drop c.length, isspace x = false := by
        intro x hx
        exact hbw x (List.drop_subset _ _ hx)
      have hacc := processChunk_accumulate_noWS hcne hcw st fd fails
      have hstep : deliverChunks fd fails st (c :: c2 :: cs'') =
          deliverChunks fd fails
            { st with clients := updateClient st.clients fd (appendWB c) } (c2 :: cs'') := by
        simp [deliverChunks, hacc]
      rw [hstep,
        ih (body.drop c.length) _ hbdw hbd hjoin' (fun c' hc' => hnz c' (by simp [hc'])),
        processChunk_flush_shift st fd fails hcne hcw hbd hbdw]
      have hcb : c ++ body.drop c.length = body := by
        have hsplit := List.take_append_drop c.length body
        rw [← hc] at hsplit
        exact hsplit
      rw [hcb]

theorem C2_amended_witness :
    (∀ x ∈ ("ab".data : List Char), isspace x = false) ∧
    ("ab".data : List Char) ≠ [] ∧
    ([['a'], ['b', '\n']] : List (List Char)).flatten = "ab".data ++ ['\n'] ∧
    (∀ c ∈ ([['a'], ['b', '\n']] : List (List Char)), ∃ x ∈ c, isspace x = false) ∧
    deliverChunks 1 noFail stTwoReg [['a'], ['b', '\n']] =
      processChunk stTwoReg 1 ("ab".data ++ ['\n']) noFail :=
  ⟨by decide, by decide, by decide, by decide,
    C2_amended 1 noFail [['a'], ['b', '\n']] ("ab".data) stTwoReg
      (by decide) (by decide) (by decide) (by decide)⟩

/-! ### Registry-invariant preservation for C4 -/

theorem regInv_updateClient (st : ServerState) (fd : Nat) (f : Client → Client)
    (hf : ∀ c, (f c).username = c.username ∨ (f c).username = [])
    (h : RegInvariant st) :
    RegInvariant { st with clients := updateClient st.clients fd f } := by
  obtain ⟨h0, h1, h2, h3⟩ := h
  have hsource : ∀ r ∈ updateClient st.clients fd f, r.2.username ≠ [] →
      (r ∈ st.clients ∨ ∃ c, (fd, c) ∈ st.clients ∧ r.1 = fd ∧ r.2.username = c.username) := by
    intro r hr hrne
    rcases mem_updateClient hr with hmem | ⟨c, hlk, rfl⟩ | ⟨hlk, rfl⟩
    · exact Or.inl hmem
    · rcases hf c with hfc | hfc
      · exact Or.inr ⟨c, lookupFd_mem hlk, rfl, hfc⟩
      · exact absurd hfc hrne
    · rcases hf defaultClient with hfc | hfc
      · exact absurd (by simpa [defaultClient] using hfc) hrne
      · exact absurd hfc hrne
  refine ⟨h0, nodup_keys_updateClient h1 f, ?_, ?_⟩
  · intro p hp hpne
    rcases hsource p hp hpne with hmem | ⟨c, hc, _, hpu⟩
    · exact h2 p hmem hpne
    · rw [hpu]
      exact h2 (fd, c) hc (by rw [← hpu]; exact hpne)
  · intro p hp q hq hpq hpne
    by_cases hq0 : q.2.username = []
    · rw [hq0]
      exact hpne
    · rcases hsource p hp hpne with hpOld | ⟨cp, hcp, hp1, hp2⟩
      · rcases hsource q hq hq0 with hqOld | ⟨cq, hcq, hq1, hq2⟩
        · exact h3 p hpOld q hqOld hpq hpne
        · rw [hq2]
          exact h3 p hpOld (fd, cq) hcq (by rw [← hq1]; exact hpq) hpne
      · rcases hsource q hq hq0 with hqOld | ⟨cq, hcq, hq1, hq2⟩
        · rw [hp2]
          exact h3 (fd, cp) hcp q hqOld (by rw [← hp1]; exact hpq)
            (by rw [← hp2]; exact hpne)
        · exact absurd (hp1.trans hq1.symm) hpq

theorem regInv_register (st : ServerState) (fd : Nat) (name : List Char)
    (hname : name ≠ []) (hfree : name ∉ st.usernames) (h : RegInvariant st) :
    RegInvariant ⟨updateClient st.clients fd (setName name), st.usernames.insert name⟩ := by
  obtain ⟨h0, h1, h2, h3⟩ := h
  have hsource : ∀ r ∈ updateClient st.clients fd (setName name),
      r ∈ st.clients ∨ (r.1 = fd ∧ r.2.username = name) := by
    intro r hr
    rcases mem_updateClient hr with hmem | ⟨c, _, rfl⟩ | ⟨_, rfl⟩
    · exact Or.inl hmem
    · exact Or.inr ⟨rfl, rfl⟩
    · exact Or.inr ⟨rfl, rfl⟩
  refine ⟨?_, nodup_keys_updateClient h1 _, ?_, ?_⟩
  · intro hmem
    rcases List.mem_insert_iff.mp hmem with heq | hmem2
    · exact hname heq.symm
    · exact h0 hmem2
  · intro p hp hpne
    rcases hsource p hp with hmem | ⟨_, hpu⟩
    · exact List.mem_insert_of_mem (h2 p hmem hpne)
    · rw [hpu]
      exact List.mem_insert_self _ _
  · intro p hp q hq hpq hpne
    by_cases hq0 : q.2.username = []
    · rw [hq0]
      exact hpne
    · rcases hsource p hp with hpOld | ⟨hp1, hp2⟩
      · rcases hsource q hq with hqOld | ⟨hq1, hq2⟩
        · exact h3 p hpOld q hqOld hpq hpne
        · rw [hq2]
          intro heq
          exact hfree (heq ▸ h2 p hpOld hpne)
      · rcases hsource q hq with hqOld | ⟨hq1, hq2⟩
        · rw [hp2]
          intro heq
          exact hfree (heq.symm ▸ h2 q hqOld hq0)
        · exact absurd (hp1.trans hq1.symm) hpq

theorem regInv_disconnect (st : ServerState) (fd : Nat) (h : RegInvariant st) :
    RegInvariant (disconnect_client st fd) := by
  obtain ⟨h0, h1, h2, h3⟩ := h
  cases hlk : lookupFd st.clients fd with
  | none =>
    have hd : disconnect_client st fd = st := by
      simp [disconnect_client, hlk]
    rw [hd]
    exact ⟨h0, h1, h2, h3⟩
  | some c =>
    have hd : disconnect_client st fd =
        ⟨eraseKey st.clients fd, st.usernames.erase c.username⟩ := by
      simp [disconnect_client, hlk]
    rw [hd]
    refine ⟨?_, nodup_keys_eraseKey fd h1, ?_, ?_⟩
    · intro hmem
      exact h0 (List.erase_subset _ _ hmem)
    · intro p hp hpne
      have hpcs : p ∈ st.clients := mem_of_mem_eraseKey hp
      have hpfd : p.1 ≠ fd := fst_ne_of_mem_eraseKey h1 hp
      have hpu : p.2.username ∈ st.usernames := h2 p hpcs hpne
      have hcmem : (fd, c) ∈ st.clients := lookupFd_mem hlk
      have hne : p.2.username ≠ c.username := by
        by_cases hc0 : c.username = []
        · rw [hc0]
          exact hpne
        · exact h3 p hpcs (fd, c) hcmem hpfd hpne
      exact (List.mem_erase_of_ne hne).mpr hpu
    · intro p hp q hq hpq hpne
      exact h3 p (mem_of_mem_eraseKey hp) q (mem_of_mem_eraseKey hq) hpq hpne

theorem regInv_broadcastLoop (fd : Nat) (msg : List Char) (fails : Nat → Bool) :
    ∀ (entries : List (Nat × Client)) (st : ServerState), RegInvariant st →
      RegInvariant (broadcastLoop fd msg fails entries st).1 := by
  intro entries
  induction entries with
  | nil =>
    intro st h
    simpa [broadcastLoop] using h
  | cons hd tl ih =>
    intro st h
    obtain ⟨k, c⟩ := hd
    by_cases hk : k = fd
    · simp only [broadcastLoop, if_pos hk]
      exact ih st h
    · simp only [broadcastLoop, if_neg hk]
      by_cases hfl : fails k
      · simp only [hfl, if_pos rfl]
        exact ih _ (regInv_disconnect st k h)
      · simp only [hfl]
        simp only [Bool.false_eq_true, if_false]
        exact ih st h

theorem regInv_flushFrom (st : ServerState) (fd : Nat) (fails : Nat → Bool)
    (h : RegInvariant st) : RegInvariant (flushFrom st fd fails).1 := by
  unfold flushFrom
  exact regInv_broadcastLoop fd _ fails _ _
    (regInv_updateClient st fd _ (fun c => Or.inl rfl) h)

theorem regInv_processChunk (st : ServerState) (fd : Nat) (chunk : List Char)
    (fails : Nat → Bool) (h : RegInvariant st) :
    RegInvariant (processChunk st fd chunk fails).1 := by
  cases hemp : isBufferEmpty (trimBuffer chunk) with
  | true =>
    simp only [processChunk, hemp, if_pos rfl]
    exact h
  | false =>
    cases hps : parse_username (trimBuffer chunk) 64 with
    | none =>
      cases hnl : bufferEndsWith chunk ['\n'] with
      | false =>
        rw [processChunk_noflush st fd chunk fails hemp hps hnl]
        exact regInv_updateClient st fd _ (fun c => Or.inl rfl) h
      | true =>
        rw [processChunk_doflush st fd chunk fails hemp hps hnl]
        exact regInv_flushFrom _ fd fails
          (regInv_updateClient st fd _ (fun c => Or.inl rfl) h)
    | some name =>
      cases hdup0 : IsDuplicated_Username st name with
      | true =>
        have hmem : name ∈ st.usernames := by
          simpa [IsDuplicated_Username] using hdup0
        rw [processChunk_register_conflict st fd chunk fails hps hmem]
        exact h
      | false =>
        have hmem : name ∉ st.usernames := by
          simpa [IsDuplicated_Username] using hdup0
        rw [processChunk_register_success st fd chunk fails hps hmem]
        exact regInv_register st fd name (parse_username_name_ne_nil hps) hmem h

theorem regInv_accept (st : ServerState) (new_fd : Nat) (h : RegInvariant st) :
    RegInvariant (handle_new_connection st new_fd) := by
  unfold handle_new_connection
  exact regInv_updateClient st new_fd _ (fun c => Or.inr rfl) h

/-- C4, amended: only the injection half of the bijection is invariant.
In every reachable step — accepting a connection, any receive-chunk
processing (registration, conflict, chat broadcast with arbitrary send
failures), and disconnect — the code preserves: the registry holds no
empty name, every connection with a nonempty display name has exactly
that name in the registry, and no two live connections share a nonempty
name.  The surjection half (`no orphan registry entries`) is not an
invariant: a re-registration leaves the connection's previous name
stranded in the registry with no owning connection (see the
counterexample). -/
theorem C4_amended (st : ServerState) (h : RegInvariant st) :
    (∀ fd, RegInvariant (handle_new_connection st fd)) ∧
    (∀ fd, RegInvariant (disconnect_client st fd)) ∧
    (∀ fd chunk fails, RegInvariant (processChunk st fd chunk fails).1) :=
  ⟨fun fd => regInv_accept st fd h,
   fun fd => regInv_disconnect st fd h,
   fun fd chunk fails => regInv_processChunk st fd chunk fails h⟩

theorem C4_amended_witness :
    RegInvariant stTwoReg ∧
    RegInvariant (processChunk stTwoReg 1 ("/username w\n".data) noFail).1 :=
  ⟨by decide, (C4_amended stTwoReg (by decide)).2.2 1 ("/username w\n".data) noFail⟩

end TcpChat
